import Mathlib

/-!
Verification development for the DiagTCM multi-symptom diagnostic engine
(`multi.py`, class `DiagnosticSystem`).  Symptoms and disease names are
modelled as natural numbers; a catalog (the constructor argument
`disease_symptoms`) is an association list from disease to its symptom set,
in insertion order.  Python floats are modelled as exact real numbers, and
the ambient numpy random state is modelled as an explicit stream of natural
numbers threaded through every randomized operation.
-/

namespace DiagTCM

/-- Model of the Python symptom string: a natural-number token. -/
abbrev Symptom := ℕ

/-- Model of `disease_symptoms`: an association list disease ↦ symptom set,
in dict insertion order. -/
abbrev Catalog := List (ℕ × Finset Symptom)

/-- Model of `self.all_symptoms = set().union(*disease_symptoms.values())`. -/
def all_symptoms (cat : Catalog) : Finset Symptom :=
  cat.foldr (fun p acc => p.2 ∪ acc) ∅

/-- Model of `_get_candidate_diseases`: keep the diseases whose symptom set
meets the current symptoms. -/
def get_candidate_diseases (cat : Catalog) (current_symptoms : Finset Symptom) :
    Catalog :=
  cat.filter (fun p => current_symptoms ∩ p.2 ≠ ∅)

/-- Per-disease body of `get_disease_match_scores`:
`match_count / total_count if total_count > 0 else 0.0`, as an exact
rational. -/
def match_rate (current_symptoms symptoms : Finset Symptom) : ℚ :=
  if 0 < symptoms.card
    then ((current_symptoms ∩ symptoms).card : ℚ) / (symptoms.card : ℚ)
    else 0

/-- Model of `get_disease_match_scores`: the mapping disease ↦ match rate,
in catalog order. -/
def get_disease_match_scores (cat : Catalog) (current_symptoms : Finset Symptom) :
    List (ℕ × ℚ) :=
  cat.map (fun p => (p.1, match_rate current_symptoms p.2))

/-- Model of Python's `itertools.combinations` on a list, in the same
enumeration order (lexicographic by position). -/
def combinations : ℕ → List Symptom → List (List Symptom)
  | 0, _ => [[]]
  | _ + 1, [] => []
  | n + 1, x :: xs => (combinations n xs).map (fun c => x :: c) ++ combinations (n + 1) xs

theorem combinations_sublist {n : ℕ} {l : List Symptom} {c : List Symptom}
    (hc : c ∈ combinations n l) : c.Sublist l := by
  induction l generalizing n c with
  | nil =>
    cases n with
    | zero => simp [combinations] at hc; simp [hc]
    | succ n => simp [combinations] at hc
  | cons x xs ih =>
    cases n with
    | zero =>
      simp [combinations] at hc
      simp [hc]
    | succ n =>
      simp only [combinations, List.mem_append, List.mem_map] at hc
      rcases hc with ⟨d, hd, rfl⟩ | hc
      · exact (ih hd).cons₂ x
      · exact (ih hc).cons x

theorem combinations_length {n : ℕ} {l : List Symptom} {c : List Symptom}
    (hc : c ∈ combinations n l) : c.length = n := by
  induction l generalizing n c with
  | nil =>
    cases n with
    | zero => simp [combinations] at hc; simp [hc]
    | succ n => simp [combinations] at hc
  | cons x xs ih =>
    cases n with
    | zero => simp [combinations] at hc; simp [hc]
    | succ n =>
      simp only [combinations, List.mem_append, List.mem_map] at hc
      rcases hc with ⟨d, hd, rfl⟩ | hc
      · simp [ih hd]
      · exact ih hc

theorem combinations_ne_nil {n : ℕ} {l : List Symptom} (h : n ≤ l.length) :
    combinations n l ≠ [] := by
  induction l generalizing n with
  | nil =>
    have : n = 0 := Nat.le_zero.mp (by simpa using h)
    subst this
    simp [combinations]
  | cons x xs ih =>
    cases n with
    | zero => simp [combinations]
    | succ n =>
      have hn : n ≤ xs.length := by simpa using h
      simp only [combinations, ne_eq, List.append_eq_nil, List.map_eq_nil_iff, not_and_or]
      exact Or.inl (ih hn)

/-- Completeness of the enumeration: every size-`n` subset of the elements of
a duplicate-free list occurs (as a list) among its `combinations`. -/
theorem combinations_complete {l : List Symptom} (hl : l.Nodup) (s : Finset Symptom)
    (hs : ∀ x ∈ s, x ∈ l) {n : ℕ} (hcard : s.card = n) :
    ∃ c ∈ combinations n l, c.toFinset = s := by
  induction l generalizing s n with
  | nil =>
    have : s = ∅ := Finset.eq_empty_of_forall_not_mem (fun x hx => by simpa using hs x hx)
    subst this
    simp at hcard
    subst hcard
    exact ⟨[], by simp [combinations]⟩
  | cons x xs ih =>
    have hxs : xs.Nodup := (List.nodup_cons.mp hl).2
    by_cases hxmem : x ∈ s
    · -- use the branch that starts with `x`
      cases n with
      | zero =>
        rw [Finset.card_eq_zero] at hcard
        exact absurd (hcard ▸ hxmem) (Finset.not_mem_empty x)
      | succ n =>
        have hxnot : x ∉ xs := (List.nodup_cons.mp hl).1
        have hsub : ∀ y ∈ s.erase x, y ∈ xs := by
          intro y hy
          have hyl := hs y (Finset.mem_of_mem_erase hy)
          have hne : y ≠ x := Finset.ne_of_mem_erase hy
          simpa [hne] using hyl
        have hcard' : (s.erase x).card = n := by
          rw [Finset.card_erase_of_mem hxmem, hcard]
          rfl
        obtain ⟨c, hc, hcs⟩ := ih hxs (s.erase x) hsub hcard'
        refine ⟨x :: c, ?_, ?_⟩
        · simp only [combinations, List.mem_append, List.mem_map]
          exact Or.inl ⟨c, hc, rfl⟩
        · simp [hcs, Finset.insert_erase hxmem]
    · -- every element of s is in xs
      have hsub : ∀ y ∈ s, y ∈ xs := by
        intro y hy
        have := hs y hy
        rcases List.mem_cons.mp this with rfl | h
        · exact absurd hy hxmem
        · exact h
      obtain ⟨c, hc, hcs⟩ := ih hxs s hsub hcard
      refine ⟨c, ?_, hcs⟩
      cases n with
      | zero => simpa [combinations] using hc
      | succ n =>
        simp only [combinations, List.mem_append]
        exact Or.inr hc

section SortAndMax

open Classical

/-- Stable insertion step for Python's `list.sort`: `x` goes in front of the
first element `y` with `r x y`. -/
noncomputable def insertBy {α : Type} (r : α → α → Prop) (x : α) : List α → List α
  | [] => [x]
  | y :: ys => if r x y then x :: y :: ys else y :: insertBy r x ys

/-- Stable sort by the relation `r` (insertion sort).  With
`r a b := key b ≤ key a` this is Python's stable `sort(key=key, reverse=True)`:
an element inserted from the left lands in front of equal-key elements. -/
noncomputable def sortBy {α : Type} (r : α → α → Prop) : List α → List α
  | [] => []
  | x :: xs => insertBy r x (sortBy r xs)

theorem insertBy_perm {α : Type} (r : α → α → Prop) (x : α) (l : List α) :
    (insertBy r x l).Perm (x :: l) := by
  induction l with
  | nil => simp [insertBy]
  | cons y ys ih =>
    by_cases h : r x y
    · simp [insertBy, h]
    · simp only [insertBy, if_neg h]
      exact (ih.cons y).trans (List.Perm.swap x y ys)

theorem sortBy_perm {α : Type} (r : α → α → Prop) (l : List α) :
    (sortBy r l).Perm l := by
  induction l with
  | nil => simp [sortBy]
  | cons x xs ih =>
    exact (insertBy_perm r x (sortBy r xs)).trans (ih.cons x)

/-- One step of Python's running-maximum loop
(`if score > best_score: best = x`), with `none` playing the role of the
`-inf` start. -/
noncomputable def bestStep {α : Type} (f : α → ℝ) (acc : Option α) (x : α) : Option α :=
  match acc with
  | none => some x
  | some b => if f b < f x then some x else some b

/-- Model of Python's forward scan keeping the best-scoring element, with
strict improvement only (so the first of several maximizers is kept).  This
is both the combination scan of `_exhaustive_search` and the semantics of
`max(..., key=...)` / `np.argmax`. -/
noncomputable def argmaxFirst {α : Type} (f : α → ℝ) (l : List α) : Option α :=
  l.foldl (bestStep f) none

/-- The element `c` is the first maximizer of `f` in the enumeration order
of `l`. -/
def IsFirstMax {α : Type} (f : α → ℝ) (l : List α) (c : α) : Prop :=
  (∀ x ∈ l, f x ≤ f c) ∧ ∃ pre post, l = pre ++ c :: post ∧ ∀ x ∈ pre, f x < f c

theorem foldl_bestStep_spec {α : Type} (f : α → ℝ) :
    ∀ (xs : List α) (b : α) (pre post : List α),
      (∀ x ∈ pre, f x < f b) → (∀ x ∈ post, f x ≤ f b) →
      ∃ c, List.foldl (bestStep f) (some b) xs = some c ∧
        IsFirstMax f (pre ++ b :: (post ++ xs)) c := by
  intro xs
  induction xs with
  | nil =>
    intro b pre post hpre hpost
    refine ⟨b, rfl, ?_, pre, post ++ [], by simp, hpre⟩
    intro x hx
    simp only [List.append_nil, List.mem_append, List.mem_cons] at hx
    rcases hx with hx | rfl | hx
    · exact le_of_lt (hpre x hx)
    · exact le_refl _
    · exact hpost x hx
  | cons y ys ih =>
    intro b pre post hpre hpost
    by_cases h : f b < f y
    · have step : List.foldl (bestStep f) (some b) (y :: ys) =
          List.foldl (bestStep f) (some y) ys := by
        simp [bestStep, h]
      rw [step]
      have hpre' : ∀ x ∈ pre ++ b :: post, f x < f y := by
        intro x hx
        simp only [List.mem_append, List.mem_cons] at hx
        rcases hx with hx | rfl | hx
        · exact lt_trans (hpre x hx) h
        · exact h
        · exact lt_of_le_of_lt (hpost x hx) h
      obtain ⟨c, hc, hmax⟩ := ih y (pre ++ b :: post) [] hpre' (by simp)
      refine ⟨c, hc, ?_⟩
      have : pre ++ b :: post ++ y :: ([] ++ ys) = pre ++ b :: (post ++ y :: ys) := by
        simp
      rwa [this] at hmax
    · have step : List.foldl (bestStep f) (some b) (y :: ys) =
          List.foldl (bestStep f) (some b) ys := by
        simp [bestStep, h]
      rw [step]
      have hpost' : ∀ x ∈ post ++ [y], f x ≤ f b := by
        intro x hx
        simp only [List.mem_append, List.mem_singleton] at hx
        rcases hx with hx | rfl
        · exact hpost x hx
        · exact le_of_not_lt h
      obtain ⟨c, hc, hmax⟩ := ih b pre (post ++ [y]) hpre hpost'
      refine ⟨c, hc, ?_⟩
      have : pre ++ b :: (post ++ [y] ++ ys) = pre ++ b :: (post ++ y :: ys) := by
        simp
      rwa [this] at hmax

theorem argmaxFirst_spec {α : Type} (f : α → ℝ) (l : List α) (hl : l ≠ []) :
    ∃ c, argmaxFirst f l = some c ∧ IsFirstMax f l c := by
  cases l with
  | nil => exact absurd rfl hl
  | cons x xs =>
    have step : argmaxFirst f (x :: xs) = List.foldl (bestStep f) (some x) xs := rfl
    obtain ⟨c, hc, hmax⟩ := foldl_bestStep_spec f xs x [] [] (by simp) (by simp)
    exact ⟨c, step ▸ hc, by simpa using hmax⟩

theorem argmaxFirst_mem {α : Type} {f : α → ℝ} {l : List α} {c : α}
    (h : argmaxFirst f l = some c) : c ∈ l := by
  cases l with
  | nil => simp [argmaxFirst] at h
  | cons x xs =>
    obtain ⟨c', hc', hmax⟩ := argmaxFirst_spec f (x :: xs) (by simp)
    rw [h] at hc'
    obtain ⟨_, pre, post, hdec, _⟩ := hmax
    rw [Option.some_inj] at hc'
    subst hc'
    rw [hdec]
    simp

theorem argmaxFirst_eq_none {α : Type} {f : α → ℝ} {l : List α} :
    argmaxFirst f l = none ↔ l = [] := by
  cases l with
  | nil => simp [argmaxFirst]
  | cons x xs =>
    obtain ⟨c, hc, _⟩ := argmaxFirst_spec f (x :: xs) (by simp)
    simp [hc]

end SortAndMax

section Scoring

open Classical

/-- Model of Python's `math.log2`. -/
noncomputable def log2 (x : ℝ) : ℝ := Real.logb 2 x

/-- Model of `_split_by_symptoms`: diseases grouped by the membership
pattern of `symptoms` in their symptom sets.  The pattern key
`tuple(symptom in disease_symptoms for symptom in symptoms)` determines and
is determined by the intersection `symptoms ∩ disease_symptoms`, which is
used as the key here; groups are the fibers of that key. -/
def _split_by_symptoms (symptoms : Finset Symptom) (candidate_diseases : Catalog) :
    List Catalog :=
  ((candidate_diseases.map fun p => symptoms ∩ p.2).dedup).map
    (fun k => candidate_diseases.filter (fun p => symptoms ∩ p.2 = k))

/-- Model of `_calculate_total_information_gain`. -/
noncomputable def _calculate_total_information_gain (symptoms : Finset Symptom)
    (candidate_diseases : Catalog) : ℝ :=
  if candidate_diseases.length = 0 then 0
  else
    let initial_entropy := log2 (candidate_diseases.length : ℝ)
    let subgroups := _split_by_symptoms symptoms candidate_diseases
    let total : ℝ := (candidate_diseases.length : ℝ)
    let conditional_entropy := -((subgroups.map fun g =>
      let prob : ℝ := (g.length : ℝ) / total
      if 0 < prob then prob * log2 prob else 0).sum)
    initial_entropy - conditional_entropy

/-- Model of `_calculate_coverage_score`.  Real division by zero is 0 in
Lean; in Python a candidate disease always has a nonempty symptom set (it
intersects the confirmed set), so the per-disease division never divides by
zero on reachable inputs. -/
noncomputable def _calculate_coverage_score (symptoms : Finset Symptom)
    (candidate_diseases : Catalog) : ℝ :=
  let total_coverage := (candidate_diseases.map fun p =>
    ((symptoms ∩ p.2).card : ℝ) / (p.2.card : ℝ)).sum
  if candidate_diseases ≠ [] then total_coverage / (candidate_diseases.length : ℝ) else 0

/-- Model of `_calculate_mutual_information`, computed over the whole
catalog. -/
noncomputable def _calculate_mutual_information (cat : Catalog) (s1 s2 : Symptom) : ℝ :=
  let count_both := (cat.filter fun p => s1 ∈ p.2 ∧ s2 ∈ p.2).length
  let count_s1 := (cat.filter fun p => s1 ∈ p.2).length
  let count_s2 := (cat.filter fun p => s2 ∈ p.2).length
  let total := cat.length
  if count_both = 0 then 0
  else
    let p_both : ℝ := (count_both : ℝ) / (total : ℝ)
    let p_s1 : ℝ := (count_s1 : ℝ) / (total : ℝ)
    let p_s2 : ℝ := (count_s2 : ℝ) / (total : ℝ)
    if p_both = 0 ∨ p_s1 = 0 ∨ p_s2 = 0 then 0
    else p_both * log2 (p_both / (p_s1 * p_s2))

/-- Model of `_calculate_independence_score`: Python's
`combinations(symptoms, 2)` over a set visits every unordered pair once;
here the pairs are enumerated from the canonically sorted element list. -/
noncomputable def _calculate_independence_score (cat : Catalog)
    (symptoms : Finset Symptom) : ℝ :=
  if symptoms.card ≤ 1 then 1
  else
    let mutual_info := ((combinations 2 (symptoms.sort (· ≤ ·))).map fun c =>
      match c with
      | [a, b] => _calculate_mutual_information cat a b
      | _ => 0).sum
    1 / (1 + mutual_info)

/-- Model of `_calculate_combined_score`. -/
noncomputable def _calculate_combined_score (cat : Catalog) (symptoms : Finset Symptom)
    (candidate_diseases : Catalog) : ℝ :=
  0.4 * _calculate_total_information_gain symptoms candidate_diseases
    + 0.4 * _calculate_coverage_score symptoms candidate_diseases
    + 0.2 * _calculate_independence_score cat symptoms

/-- Model of `_calculate_symptom_importance`. -/
noncomputable def _calculate_symptom_importance (cat : Catalog) (symptom : Symptom)
    (current_symptoms : Finset Symptom) (candidate_diseases : Catalog) : ℝ :=
  _calculate_combined_score cat (current_symptoms ∪ {symptom}) candidate_diseases

/-- Model of the local `symptom_score` closure shared by `_greedy_selection`
and `_exhaustive_search`: importance, halved for denied symptoms. -/
noncomputable def denial_weighted_importance (cat : Catalog)
    (current_symptoms : Finset Symptom) (candidate_diseases : Catalog)
    (denied_symptoms : Finset Symptom) (s : Symptom) : ℝ :=
  let score := _calculate_symptom_importance cat s current_symptoms candidate_diseases
  if s ∈ denied_symptoms then score * 0.5 else score

end Scoring

section Selectors

open Classical

/-- Score of one candidate combination inside `_exhaustive_search`:
combined score of `current ∪ combo` minus `0.2` per denied symptom in the
combination. -/
noncomputable def exhaustive_combo_score (cat : Catalog) (current_symptoms : Finset Symptom)
    (candidate_diseases : Catalog) (denied_symptoms : Finset Symptom)
    (combo : List Symptom) : ℝ :=
  _calculate_combined_score cat (current_symptoms ∪ combo.toFinset) candidate_diseases
    - (combo.countP (fun s => s ∈ denied_symptoms) : ℝ) * 0.2

/-- Importance-sorted pool used by `_greedy_selection` and
`_exhaustive_search`: `sorted(available_symptoms, key=symptom_score,
reverse=True)`, starting from the canonical element order of the set. -/
noncomputable def sorted_pool (cat : Catalog) (current_symptoms : Finset Symptom)
    (candidate_diseases : Catalog) (denied_symptoms : Finset Symptom)
    (available_symptoms : Finset Symptom) : List Symptom :=
  sortBy
    (fun a b => denial_weighted_importance cat current_symptoms candidate_diseases
        denied_symptoms b
      ≤ denial_weighted_importance cat current_symptoms candidate_diseases
        denied_symptoms a)
    (available_symptoms.sort (· ≤ ·))

/-- Model of `_exhaustive_search`: scan every size-`n` combination of the
importance-sorted pool, keeping the first strict maximizer of the
denial-penalized combined score. -/
noncomputable def _exhaustive_search (cat : Catalog) (current_symptoms : Finset Symptom)
    (candidate_diseases : Catalog) (available_symptoms : Finset Symptom) (n : ℕ)
    (denied_symptoms : Finset Symptom) : Finset Symptom :=
  let sorted_symptoms :=
    sorted_pool cat current_symptoms candidate_diseases denied_symptoms available_symptoms
  match argmaxFirst
      (exhaustive_combo_score cat current_symptoms candidate_diseases denied_symptoms)
      (combinations n sorted_symptoms) with
  | some best_combination => best_combination.toFinset
  | none => ∅

/-- Score of one pool symptom in the greedy inner loop: combined score of
`current ∪ selected ∪ {s}`, halved when `s` was denied. -/
noncomputable def greedy_pick_score (cat : Catalog) (current_symptoms : Finset Symptom)
    (candidate_diseases : Catalog) (denied_symptoms : Finset Symptom)
    (selected_symptoms : Finset Symptom) (s : Symptom) : ℝ :=
  let score := _calculate_combined_score cat
    (current_symptoms ∪ selected_symptoms ∪ {s}) candidate_diseases
  if s ∈ denied_symptoms then score * 0.5 else score

/-- Model of the main loop of `_greedy_selection`: up to `n` rounds, each
scanning the remaining pool for the best-scoring symptom (first maximizer,
Python's strict `>` update), adding it to `selected` and removing it from
the pool; the loop stops early when the pool is empty. -/
noncomputable def greedyLoop (cat : Catalog) (current_symptoms : Finset Symptom)
    (candidate_diseases : Catalog) (denied_symptoms : Finset Symptom) :
    ℕ → Finset Symptom → List Symptom → Finset Symptom × List Symptom
  | 0, selected, l => (selected, l)
  | k + 1, selected, l =>
    match argmaxFirst
        (greedy_pick_score cat current_symptoms candidate_diseases denied_symptoms selected)
        l with
    | none => (selected, l)
    | some best => greedyLoop cat current_symptoms candidate_diseases denied_symptoms
        k (insert best selected) (l.erase best)

/-- Model of `_greedy_selection`, including the backfill pass that tops the
selection up to `n` symptoms in importance order when the main loop chose
fewer (the list is re-sorted by the same `symptom_score` key, as in the
source). -/
noncomputable def _greedy_selection (cat : Catalog) (current_symptoms : Finset Symptom)
    (candidate_diseases : Catalog) (available_symptoms : Finset Symptom) (n : ℕ)
    (denied_symptoms : Finset Symptom) : Finset Symptom :=
  let symptoms_list :=
    sorted_pool cat current_symptoms candidate_diseases denied_symptoms available_symptoms
  let result := greedyLoop cat current_symptoms candidate_diseases denied_symptoms
    n ∅ symptoms_list
  let selected := result.1
  if selected.card < n then
    let remaining := sortBy
      (fun a b => denial_weighted_importance cat current_symptoms candidate_diseases
          denied_symptoms b
        ≤ denial_weighted_importance cat current_symptoms candidate_diseases
          denied_symptoms a)
      (result.2.filter (fun s => s ∉ selected))
    remaining.foldl (fun acc s => if n ≤ acc.card then acc else insert s acc) selected
  else selected

end Selectors

section Genetic

open Classical

/-- Model of the numpy random state: a stream of raw draws.  Every randomized
primitive consumes a prefix of the stream and returns the shifted
remainder. -/
def Rng : Type := ℕ → ℕ

/-- Stream left over after consuming `k` draws. -/
def rngDrop (g : Rng) (k : ℕ) : Rng := fun i => g (i + k)

/-- Model of `np.random.choice(list)`: one uniform pick from a nonempty
list, realized by reducing a raw draw modulo the length. -/
def choiceL (l : List Symptom) (g : Rng) : Symptom × Rng :=
  (l.getD (g 0 % l.length) 0, rngDrop g 1)

/-- Model of `np.random.choice(list(s))` for a Python set `s`, picking from
its canonically ordered element list. -/
def choiceF (s : Finset Symptom) (g : Rng) : Symptom × Rng :=
  choiceL (s.sort (· ≤ ·)) g

/-- Model of `np.random.choice(l, k, replace=False)`: draw `k` distinct
elements by repeatedly picking a position and removing it. -/
def sampleWoR : ℕ → List Symptom → Rng → List Symptom × Rng
  | 0, _, g => ([], g)
  | _ + 1, [], g => ([], g)
  | k + 1, x :: xs, g =>
    let l := x :: xs
    let i := g 0 % l.length
    let rest := sampleWoR k (l.eraseIdx i) (rngDrop g 1)
    (l.getD i 0 :: rest.1, rest.2)

/-- Model of `np.random.shuffle`: a full random draw-out of the list. -/
def shuffleL (l : List Symptom) (g : Rng) : List Symptom × Rng :=
  sampleWoR l.length l g

/-- State-threading map over a list. -/
def mapRand {α β : Type} (f : α → Rng → β × Rng) : List α → Rng → List β × Rng
  | [], g => ([], g)
  | x :: xs, g =>
    let yr := f x g
    let rest := mapRand f xs yr.2
    (yr.1 :: rest.1, rest.2)

/-- Model of the genetic `fitness` closure: combined score of
`current ∪ individual` minus `0.2` per denied symptom in the individual. -/
noncomputable def genetic_fitness (cat : Catalog) (current_symptoms : Finset Symptom)
    (candidate_diseases : Catalog) (denied_symptoms : Finset Symptom)
    (individual : Finset Symptom) : ℝ :=
  _calculate_combined_score cat (current_symptoms ∪ individual) candidate_diseases
    - 0.2 * ((individual.filter (fun s => s ∈ denied_symptoms)).card : ℝ)

/-- Model of `_tournament_select`: three indices drawn with replacement,
winner is the index of first-maximal fitness (`np.argmax` keeps the first
maximizer). -/
noncomputable def _tournament_select (population : List (Finset Symptom))
    (fit : Finset Symptom → ℝ) (g : Rng) : Finset Symptom × Rng :=
  let i1 := g 0 % population.length
  let i2 := g 1 % population.length
  let i3 := g 2 % population.length
  let winner_idx := (argmaxFirst (fun i => fit (population.getD i ∅)) [i1, i2, i3]).getD 0
  (population.getD winner_idx ∅, rngDrop g 3)

/-- Model of the `while len(combined) < n` supplementation loop of
`_crossover`, with explicit fuel (one element is appended per iteration, so
`n` iterations always suffice). -/
def crossFill (unionSet : Finset Symptom) (n : ℕ) :
    ℕ → List Symptom → Rng → List Symptom × Rng
  | 0, c, g => (c, g)
  | fuel + 1, c, g =>
    if c.length < n then
      let remaining := unionSet \ c.toFinset
      if remaining = ∅ then (c, g)
      else
        let pick := choiceF remaining g
        crossFill unionSet n fuel (c ++ [pick.1]) pick.2
    else (c, g)

/-- Model of `_crossover`: union of the parents, shuffled and truncated to
`n` if larger, topped up from the union otherwise; both children are the
same resulting set. -/
def _crossover (parent1 parent2 : Finset Symptom) (n : ℕ) (g : Rng) :
    (Finset Symptom × Finset Symptom) × Rng :=
  let combined := (parent1 ∪ parent2).sort (· ≤ ·)
  let step1 : List Symptom × Rng :=
    if n < combined.length then
      let sh := shuffleL combined g
      (sh.1.take n, sh.2)
    else (combined, g)
  let filled := crossFill (parent1 ∪ parent2) n n step1.1 step1.2
  ((filled.1.toFinset, filled.1.toFinset), filled.2)

/-- Model of `_mutate`: with probability `mutation_rate` replace one
uniformly random member by one uniformly random symptom of
`available_symptoms − individual` (no-op when that set is empty); the `n`
parameter is unused, as in the source. -/
noncomputable def _mutate (individual available_symptoms : Finset Symptom)
    (mutation_rate : ℝ) (_n : ℕ) (g : Rng) : Finset Symptom × Rng :=
  let r : ℝ := ((g 0 % 1000000 : ℕ) : ℝ) / 1000000
  let g1 := rngDrop g 1
  if r < mutation_rate then
    let available := available_symptoms \ individual
    if available = ∅ then (individual, g1)
    else
      let pick1 := choiceF individual g1
      let pick2 := choiceF available pick1.2
      (insert pick2.1 (individual.erase pick1.1), pick2.2)
  else (individual, g1)

/-- Model of the scan of `_local_search` over the symptoms of the original
individual: each round proposes swapping one held symptom for a random
symptom of `all_symptoms − current − individual`, accepting on strict
combined-score improvement (no denial penalty here, as in the source). -/
noncomputable def localSearchGo (cat : Catalog) (current_symptoms : Finset Symptom)
    (candidate_diseases : Catalog) (all_syms individual : Finset Symptom) :
    List Symptom → (Finset Symptom × ℝ) → Rng → (Finset Symptom × ℝ) × Rng
  | [], st, g => (st, g)
  | s :: rest, st, g =>
    let remaining := (all_syms \ current_symptoms) \ individual
    if remaining = ∅ then
      localSearchGo cat current_symptoms candidate_diseases all_syms individual rest st g
    else
      let pick := choiceF remaining g
      let new_individual := insert pick.1 (individual.erase s)
      let score := _calculate_combined_score cat
        (current_symptoms ∪ new_individual) candidate_diseases
      if st.2 < score then
        localSearchGo cat current_symptoms candidate_diseases all_syms individual rest
          (new_individual, score) pick.2
      else
        localSearchGo cat current_symptoms candidate_diseases all_syms individual rest
          st pick.2

/-- Model of `_local_search`. -/
noncomputable def _local_search (cat : Catalog) (current_symptoms : Finset Symptom)
    (candidate_diseases : Catalog) (all_syms individual : Finset Symptom) (g : Rng) :
    Finset Symptom × Rng :=
  let best_score := _calculate_combined_score cat
    (current_symptoms ∪ individual) candidate_diseases
  let res := localSearchGo cat current_symptoms candidate_diseases all_syms individual
    (individual.sort (· ≤ ·)) (individual, best_score) g
  (res.1.1, res.2)

/-- One breeding step of `_genetic_algorithm`: two tournament parents,
crossover, one independent mutation per child. -/
noncomputable def breedStep (population : List (Finset Symptom))
    (fit : Finset Symptom → ℝ) (available_symptoms : Finset Symptom)
    (mutation_rate : ℝ) (n : ℕ) (g : Rng) : List (Finset Symptom) × Rng :=
  let t1 := _tournament_select population fit g
  let t2 := _tournament_select population fit t1.2
  let cr := _crossover t1.1 t2.1 n t2.2
  let m1 := _mutate cr.1.1 available_symptoms mutation_rate n cr.2
  let m2 := _mutate cr.1.2 available_symptoms mutation_rate n m1.2
  ([m1.1, m2.1], m2.2)

/-- The `for _ in range((population_size - elite_size) // 2)` breeding loop,
appending two children per iteration to the accumulator (which starts as
the elite copy). -/
noncomputable def breedLoop (population : List (Finset Symptom))
    (fit : Finset Symptom → ℝ) (available_symptoms : Finset Symptom)
    (mutation_rate : ℝ) (n : ℕ) :
    ℕ → List (Finset Symptom) → Rng → List (Finset Symptom) × Rng
  | 0, acc, g => (acc, g)
  | k + 1, acc, g =>
    let st := breedStep population fit available_symptoms mutation_rate n g
    breedLoop population fit available_symptoms mutation_rate n k (acc ++ st.1) st.2

/-- One generation of `_genetic_algorithm`: elitism (the 5 fittest, via the
fitness argsort), tournament breeding with crossover and mutation, mutation
rate decay, then the local-search pass over the new population. -/
noncomputable def generationStep (cat : Catalog) (current_symptoms : Finset Symptom)
    (candidate_diseases : Catalog) (denied_symptoms available_symptoms : Finset Symptom)
    (n : ℕ) (st : List (Finset Symptom) × ℝ × Rng) : List (Finset Symptom) × ℝ × Rng :=
  let population := st.1
  let mutation_rate := st.2.1
  let g := st.2.2
  let fit := genetic_fitness cat current_symptoms candidate_diseases denied_symptoms
  let sorted := sortBy (fun a b => fit a ≤ fit b) population
  let elite_individuals := sorted.drop (sorted.length - 5)
  let bred := breedLoop population fit available_symptoms mutation_rate n
    ((50 - 5) / 2) elite_individuals g
  let new_rate := max 0.01 (mutation_rate * 0.95)
  let searched := mapRand
    (fun ind g => _local_search cat current_symptoms candidate_diseases
      (all_symptoms cat) ind g)
    bred.1 bred.2
  (searched.1, new_rate, searched.2)

/-- Iterate a state transformer (the `for generation in range(generations)`
loop). -/
def genLoop {σ : Type} (step : σ → σ) : ℕ → σ → σ
  | 0, st => st
  | k + 1, st => genLoop step k (step st)

/-- Model of `_genetic_algorithm`: population 50, generations 30, initial
mutation rate 0.1, elite size 5; returns the first fitness maximizer of the
final population (`max(population, key=fitness)` keeps the first
maximizer). -/
noncomputable def _genetic_algorithm (cat : Catalog) (current_symptoms : Finset Symptom)
    (candidate_diseases : Catalog) (available_symptoms : Finset Symptom) (n : ℕ)
    (denied_symptoms : Finset Symptom) (g : Rng) : Finset Symptom × Rng :=
  let remaining_list := available_symptoms.sort (· ≤ ·)
  let init := mapRand
    (fun _ g =>
      let s := sampleWoR n remaining_list g
      (s.1.toFinset, s.2))
    (List.replicate 50 0) g
  let fit := genetic_fitness cat current_symptoms candidate_diseases denied_symptoms
  let final := genLoop
    (generationStep cat current_symptoms candidate_diseases denied_symptoms
      available_symptoms n)
    30 (init.1, (0.1 : ℝ), init.2)
  ((argmaxFirst fit final.1).getD ∅, final.2.2)

end Genetic

/-- Model of `calculate_next_n_symptoms`: default the denied set, compute
candidates and the available pool, return the whole pool when it is smaller
than `n`, otherwise dispatch on the method name; an unknown method raises
`ValueError("Unknown method")`. -/
noncomputable def calculate_next_n_symptoms (cat : Catalog)
    (current_symptoms : Finset Symptom) (n : ℕ) (method : String)
    (denied_symptoms : Option (Finset Symptom)) (g : Rng) :
    Except String (Finset Symptom) :=
  let denied := denied_symptoms.getD ∅
  let candidate_diseases := get_candidate_diseases cat current_symptoms
  let available_symptoms := all_symptoms cat \ current_symptoms
  if available_symptoms.card < n then .ok available_symptoms
  else if method = "greedy" then
    .ok (_greedy_selection cat current_symptoms candidate_diseases available_symptoms n denied)
  else if method = "exhaustive" then
    .ok (_exhaustive_search cat current_symptoms candidate_diseases available_symptoms n denied)
  else if method = "genetic" then
    .ok (_genetic_algorithm cat current_symptoms candidate_diseases available_symptoms n
      denied g).1
  else .error "Unknown method"

section RandomLemmas

theorem perm_getD_cons_eraseIdx {l : List Symptom} {i : ℕ} (h : i < l.length) :
    l.Perm (l.getD i 0 :: l.eraseIdx i) := by
  rw [List.getD_eq_getElem l 0 h]
  exact (List.perm_cons_erase (List.getElem_mem h)).trans
    ((List.erase_getElem h).cons _)

theorem choiceF_mem {s : Finset Symptom} (hs : s ≠ ∅) (g : Rng) : (choiceF s g).1 ∈ s := by
  have hlen : 0 < (s.sort (· ≤ ·)).length := by
    rw [Finset.length_sort]
    exact Finset.card_pos.mpr (Finset.nonempty_iff_ne_empty.mpr hs)
  have hi : g 0 % (s.sort (· ≤ ·)).length < (s.sort (· ≤ ·)).length :=
    Nat.mod_lt _ hlen
  have : (choiceF s g).1 = (s.sort (· ≤ ·)).getD (g 0 % (s.sort (· ≤ ·)).length) 0 := rfl
  rw [this, List.getD_eq_getElem _ 0 hi]
  exact (Finset.mem_sort _).mp (List.getElem_mem hi)

theorem sampleWoR_length (k : ℕ) :
    ∀ (l : List Symptom) (g : Rng), (sampleWoR k l g).1.length = min k l.length := by
  induction k with
  | zero => intro l g; simp [sampleWoR]
  | succ k ih =>
    intro l g
    cases l with
    | nil => simp [sampleWoR]
    | cons x xs =>
      have hlen : 0 < (x :: xs).length := by simp
      have hi : g 0 % (x :: xs).length < (x :: xs).length := Nat.mod_lt _ hlen
      have herase : ((x :: xs).eraseIdx (g 0 % (x :: xs).length)).length
          = (x :: xs).length - 1 := List.length_eraseIdx_of_lt hi
      simp only [sampleWoR, List.length_cons]
      rw [ih _ (rngDrop g 1)]
      simp only [List.length_cons] at herase
      rw [herase]
      omega

theorem sampleWoR_subset (k : ℕ) :
    ∀ (l : List Symptom) (g : Rng) (x : Symptom), x ∈ (sampleWoR k l g).1 → x ∈ l := by
  induction k with
  | zero => intro l g x hx; simp [sampleWoR] at hx
  | succ k ih =>
    intro l g x hx
    cases l with
    | nil => simp [sampleWoR] at hx
    | cons y ys =>
      have hlen : 0 < (y :: ys).length := by simp
      have hi : g 0 % (y :: ys).length < (y :: ys).length := Nat.mod_lt _ hlen
      simp only [sampleWoR, List.mem_cons] at hx
      rcases hx with rfl | hx
      · rw [List.getD_eq_getElem _ 0 hi]
        exact List.getElem_mem hi
      · exact (List.eraseIdx_sublist _ _).subset (ih _ _ _ hx)

theorem sampleWoR_nodup (k : ℕ) :
    ∀ (l : List Symptom) (g : Rng), l.Nodup → (sampleWoR k l g).1.Nodup := by
  induction k with
  | zero => intro l g _; simp [sampleWoR]
  | succ k ih =>
    intro l g hl
    cases l with
    | nil => simp [sampleWoR]
    | cons y ys =>
      have hlen : 0 < (y :: ys).length := by simp
      have hi : g 0 % (y :: ys).length < (y :: ys).length := Nat.mod_lt _ hlen
      have hperm := perm_getD_cons_eraseIdx hi
      have hnodup' := hperm.nodup hl
      have hhead : (y :: ys).getD (g 0 % (y :: ys).length) 0
          ∉ (y :: ys).eraseIdx (g 0 % (y :: ys).length) := (List.nodup_cons.mp hnodup').1
      have htail : ((y :: ys).eraseIdx (g 0 % (y :: ys).length)).Nodup :=
        (List.nodup_cons.mp hnodup').2
      simp only [sampleWoR, List.nodup_cons]
      exact ⟨fun hmem => hhead (sampleWoR_subset k _ _ _ hmem), ih _ _ htail⟩

theorem sampleWoR_perm (k : ℕ) :
    ∀ (l : List Symptom) (g : Rng), l.length ≤ k → (sampleWoR k l g).1.Perm l := by
  induction k with
  | zero =>
    intro l g hl
    have : l = [] := List.length_eq_zero.mp (Nat.le_zero.mp hl)
    subst this
    simp [sampleWoR]
  | succ k ih =>
    intro l g hl
    cases l with
    | nil => simp [sampleWoR]
    | cons y ys =>
      have hlen : 0 < (y :: ys).length := by simp
      have hi : g 0 % (y :: ys).length < (y :: ys).length := Nat.mod_lt _ hlen
      have herase : ((y :: ys).eraseIdx (g 0 % (y :: ys).length)).length
          = (y :: ys).length - 1 := List.length_eraseIdx_of_lt hi
      have hle : ((y :: ys).eraseIdx (g 0 % (y :: ys).length)).length ≤ k := by
        rw [herase]; simp only [List.length_cons] at hl ⊢; omega
      have hrec := ih _ (rngDrop g 1) hle
      simp only [sampleWoR]
      exact (hrec.cons _).trans (perm_getD_cons_eraseIdx hi).symm

theorem shuffleL_perm (l : List Symptom) (g : Rng) : (shuffleL l g).1.Perm l :=
  sampleWoR_perm l.length l g (le_refl _)

theorem crossFill_of_le_length (u : Finset Symptom) (n fuel : ℕ)
    (c : List Symptom) (g : Rng) (h : n ≤ c.length) : crossFill u n fuel c g = (c, g) := by
  cases fuel with
  | zero => rfl
  | succ fuel => simp [crossFill, Nat.not_lt.mpr h]

/-- Behaviour of `_crossover` on size-`n` parents: the union has at least
`n` elements, so the supplementation loop is vacuous and both children are
the same size-`n` subset of the union. -/
theorem crossover_spec (parent1 parent2 : Finset Symptom) (n : ℕ) (g : Rng)
    (h1 : parent1.card = n) (h2 : parent2.card = n) :
    (_crossover parent1 parent2 n g).1.1 = (_crossover parent1 parent2 n g).1.2
      ∧ (_crossover parent1 parent2 n g).1.1.card = n
      ∧ (_crossover parent1 parent2 n g).1.1 ⊆ parent1 ∪ parent2 := by
  have hcard : n ≤ (parent1 ∪ parent2).card :=
    h1 ▸ Finset.card_le_card Finset.subset_union_left
  have hlen : ((parent1 ∪ parent2).sort (· ≤ ·)).length = (parent1 ∪ parent2).card :=
    Finset.length_sort _
  by_cases hbig : n < ((parent1 ∪ parent2).sort (· ≤ ·)).length
  · -- shuffle-and-truncate branch
    set combined := (parent1 ∪ parent2).sort (· ≤ ·) with hcombined
    have hperm : (shuffleL combined g).1.Perm combined := shuffleL_perm _ _
    have hnodup : (shuffleL combined g).1.Nodup :=
      hperm.symm.nodup (Finset.sort_nodup _ _)
    have htake_nodup : ((shuffleL combined g).1.take n).Nodup :=
      (List.take_sublist _ _).nodup hnodup
    have htake_len : ((shuffleL combined g).1.take n).length = n := by
      rw [List.length_take, hperm.length_eq]
      exact min_eq_left (le_of_lt hbig)
    have hfill := crossFill_of_le_length (parent1 ∪ parent2) n n
      ((shuffleL combined g).1.take n) (shuffleL combined g).2 (le_of_eq htake_len.symm)
    have hres : (_crossover parent1 parent2 n g).1.1 = ((shuffleL combined g).1.take n).toFinset := by
      simp only [_crossover, ← hcombined, if_pos hbig, hfill]
    refine ⟨rfl, ?_, ?_⟩
    · rw [hres, List.toFinset_card_of_nodup htake_nodup, htake_len]
    · rw [hres]
      intro x hx
      rw [List.mem_toFinset] at hx
      have hx' : x ∈ combined := hperm.subset ((List.take_sublist _ _).subset hx)
      exact (Finset.mem_sort _).mp hx'
  · -- the union has exactly n elements and is kept whole
    have hn : ((parent1 ∪ parent2).sort (· ≤ ·)).length = n := by omega
    have hfill := crossFill_of_le_length (parent1 ∪ parent2) n n
      ((parent1 ∪ parent2).sort (· ≤ ·)) g (le_of_eq hn.symm)
    have hres : (_crossover parent1 parent2 n g).1.1
        = ((parent1 ∪ parent2).sort (· ≤ ·)).toFinset := by
      simp only [_crossover, if_neg hbig, hfill]
    refine ⟨rfl, ?_, ?_⟩
    · rw [hres, List.toFinset_card_of_nodup (Finset.sort_nodup _ _), hn]
    · rw [hres, Finset.sort_toFinset]

end RandomLemmas

section SelectorLemmas

theorem sorted_pool_perm (cat : Catalog) (current_symptoms : Finset Symptom)
    (candidate_diseases : Catalog) (denied_symptoms available_symptoms : Finset Symptom) :
    (sorted_pool cat current_symptoms candidate_diseases denied_symptoms
      available_symptoms).Perm (available_symptoms.sort (· ≤ ·)) :=
  sortBy_perm _ _

theorem sorted_pool_nodup (cat : Catalog) (current_symptoms : Finset Symptom)
    (candidate_diseases : Catalog) (denied_symptoms available_symptoms : Finset Symptom) :
    (sorted_pool cat current_symptoms candidate_diseases denied_symptoms
      available_symptoms).Nodup :=
  (sorted_pool_perm _ _ _ _ _).symm.nodup (Finset.sort_nodup _ _)

theorem sorted_pool_length (cat : Catalog) (current_symptoms : Finset Symptom)
    (candidate_diseases : Catalog) (denied_symptoms available_symptoms : Finset Symptom) :
    (sorted_pool cat current_symptoms candidate_diseases denied_symptoms
      available_symptoms).length = available_symptoms.card := by
  rw [(sorted_pool_perm _ _ _ _ _).length_eq, Finset.length_sort]

theorem sorted_pool_mem {cat : Catalog} {current_symptoms : Finset Symptom}
    {candidate_diseases : Catalog} {denied_symptoms available_symptoms : Finset Symptom}
    {x : Symptom} :
    x ∈ sorted_pool cat current_symptoms candidate_diseases denied_symptoms
      available_symptoms ↔ x ∈ available_symptoms := by
  rw [(sorted_pool_perm _ _ _ _ _).mem_iff, Finset.mem_sort]

theorem greedyLoop_spec (cat : Catalog) (current_symptoms : Finset Symptom)
    (candidate_diseases : Catalog) (denied_symptoms : Finset Symptom) :
    ∀ (k : ℕ) (selected : Finset Symptom) (l : List Symptom), l.Nodup →
      (∀ s ∈ l, s ∉ selected) →
      (greedyLoop cat current_symptoms candidate_diseases denied_symptoms
          k selected l).1.card = selected.card + min k l.length
      ∧ ∀ x ∈ (greedyLoop cat current_symptoms candidate_diseases denied_symptoms
          k selected l).1, x ∈ selected ∨ x ∈ l := by
  intro k
  induction k with
  | zero =>
    intro selected l _ _
    exact ⟨by simp [greedyLoop], fun x hx => Or.inl (by simpa [greedyLoop] using hx)⟩
  | succ k ih =>
    intro selected l hl hdisj
    cases harg : argmaxFirst
        (greedy_pick_score cat current_symptoms candidate_diseases denied_symptoms selected)
        l with
    | none =>
      have hnil : l = [] := argmaxFirst_eq_none.mp harg
      subst hnil
      constructor
      · simp [greedyLoop, harg]
      · intro x hx
        simp only [greedyLoop, harg] at hx
        exact Or.inl hx
    | some best =>
      have hbest : best ∈ l := argmaxFirst_mem harg
      have hbest_not : best ∉ selected := hdisj best hbest
      have hlen_pos : 0 < l.length := List.length_pos.mpr (List.ne_nil_of_mem hbest)
      have herase_nodup : (l.erase best).Nodup := hl.erase best
      have herase_len : (l.erase best).length = l.length - 1 :=
        List.length_erase_of_mem hbest
      have hdisj' : ∀ s ∈ l.erase best, s ∉ insert best selected := by
        intro s hs
        obtain ⟨hne, hmem⟩ := (hl.mem_erase_iff).mp hs
        simp only [Finset.mem_insert, not_or]
        exact ⟨hne, hdisj s hmem⟩
      obtain ⟨ihcard, ihmem⟩ := ih (insert best selected) (l.erase best) herase_nodup hdisj'
      have hstep : greedyLoop cat current_symptoms candidate_diseases denied_symptoms
          (k + 1) selected l
          = greedyLoop cat current_symptoms candidate_diseases denied_symptoms
            k (insert best selected) (l.erase best) := by
        simp [greedyLoop, harg]
      constructor
      · rw [hstep, ihcard, Finset.card_insert_of_not_mem hbest_not, herase_len]
        omega
      · intro x hx
        rw [hstep] at hx
        rcases ihmem x hx with hx' | hx'
        · rcases Finset.mem_insert.mp hx' with rfl | hx''
          · exact Or.inr hbest
          · exact Or.inl hx''
        · exact Or.inr ((hl.mem_erase_iff.mp hx').2)

/-- On a pool of at least `n` symptoms the greedy main loop picks exactly
`n`, so the backfill branch is not taken and the selection is an
`n`-subset of the pool. -/
theorem greedy_selection_spec (cat : Catalog) (current_symptoms : Finset Symptom)
    (candidate_diseases : Catalog) (available_symptoms : Finset Symptom) (n : ℕ)
    (denied_symptoms : Finset Symptom) (hn : n ≤ available_symptoms.card) :
    (_greedy_selection cat current_symptoms candidate_diseases available_symptoms n
        denied_symptoms).card = n
    ∧ _greedy_selection cat current_symptoms candidate_diseases available_symptoms n
        denied_symptoms ⊆ available_symptoms := by
  have hnodup := sorted_pool_nodup cat current_symptoms candidate_diseases
    denied_symptoms available_symptoms
  have hlen := sorted_pool_length cat current_symptoms candidate_diseases
    denied_symptoms available_symptoms
  obtain ⟨hcard, hmem⟩ := greedyLoop_spec cat current_symptoms candidate_diseases
    denied_symptoms n ∅
    (sorted_pool cat current_symptoms candidate_diseases denied_symptoms available_symptoms)
    hnodup (by simp)
  rw [hlen] at hcard
  have hcard' : (greedyLoop cat current_symptoms candidate_diseases denied_symptoms n ∅
      (sorted_pool cat current_symptoms candidate_diseases denied_symptoms
        available_symptoms)).1.card = n := by
    rw [hcard, Finset.card_empty, Nat.zero_add, min_eq_left hn]
  have hnot : ¬ (greedyLoop cat current_symptoms candidate_diseases denied_symptoms n ∅
      (sorted_pool cat current_symptoms candidate_diseases denied_symptoms
        available_symptoms)).1.card < n := by
    rw [hcard']
    exact lt_irrefl n
  constructor
  · simp only [_greedy_selection, if_neg hnot]
    exact hcard'
  · simp only [_greedy_selection, if_neg hnot]
    intro x hx
    rcases hmem x hx with hx' | hx'
    · exact absurd hx' (Finset.not_mem_empty x)
    · exact sorted_pool_mem.mp hx'

/-- Behaviour of `_exhaustive_search` on a pool of at least `n` symptoms:
the scan over all size-`n` combinations of the importance-sorted pool finds
a first maximizer of the denial-penalized combined score and returns it as
a set. -/
theorem exhaustive_search_spec (cat : Catalog) (current_symptoms : Finset Symptom)
    (candidate_diseases : Catalog) (available_symptoms : Finset Symptom) (n : ℕ)
    (denied_symptoms : Finset Symptom) (hn : n ≤ available_symptoms.card) :
    ∃ c, _exhaustive_search cat current_symptoms candidate_diseases available_symptoms n
          denied_symptoms = c.toFinset
      ∧ IsFirstMax
          (exhaustive_combo_score cat current_symptoms candidate_diseases denied_symptoms)
          (combinations n (sorted_pool cat current_symptoms candidate_diseases
            denied_symptoms available_symptoms)) c := by
  have hlen := sorted_pool_length cat current_symptoms candidate_diseases
    denied_symptoms available_symptoms
  have hne : combinations n (sorted_pool cat current_symptoms candidate_diseases
      denied_symptoms available_symptoms) ≠ [] :=
    combinations_ne_nil (by rw [hlen]; exact hn)
  obtain ⟨c, hc, hmax⟩ := argmaxFirst_spec
    (exhaustive_combo_score cat current_symptoms candidate_diseases denied_symptoms) _ hne
  refine ⟨c, ?_, hmax⟩
  simp only [_exhaustive_search, hc]

end SelectorLemmas

section GeneticLemmas

/-- Well-formed genetic individual: an `n`-subset of the available pool. -/
def GoodInd (available_symptoms : Finset Symptom) (n : ℕ) (ind : Finset Symptom) : Prop :=
  ind ⊆ available_symptoms ∧ ind.card = n

theorem mapRand_length {α β : Type} (f : α → Rng → β × Rng) :
    ∀ (l : List α) (g : Rng), (mapRand f l g).1.length = l.length := by
  intro l
  induction l with
  | nil => intro g; rfl
  | cons x xs ih => intro g; simp [mapRand, ih]

theorem mapRand_mem {α β : Type} (f : α → Rng → β × Rng) {P : β → Prop} :
    ∀ (l : List α) (g : Rng), (∀ x ∈ l, ∀ g', P (f x g').1) →
      ∀ y ∈ (mapRand f l g).1, P y := by
  intro l
  induction l with
  | nil => intro g _ y hy; simp [mapRand] at hy
  | cons x xs ih =>
    intro g hP y hy
    simp only [mapRand, List.mem_cons] at hy
    rcases hy with rfl | hy
    · exact hP x (by simp) g
    · exact ih _ (fun z hz g' => hP z (by simp [hz]) g') y hy

theorem tournament_select_mem (population : List (Finset Symptom))
    (fit : Finset Symptom → ℝ) (g : Rng) (hne : population ≠ []) :
    (_tournament_select population fit g).1 ∈ population := by
  have hlen : 0 < population.length := List.length_pos.mpr hne
  have h1 : g 0 % population.length < population.length := Nat.mod_lt _ hlen
  have h2 : g 1 % population.length < population.length := Nat.mod_lt _ hlen
  have h3 : g 2 % population.length < population.length := Nat.mod_lt _ hlen
  obtain ⟨w, hw, hmax⟩ := argmaxFirst_spec
    (fun i => fit (population.getD i ∅))
    [g 0 % population.length, g 1 % population.length, g 2 % population.length]
    (by simp)
  have hres : (_tournament_select population fit g).1 = population.getD w ∅ := by
    simp only [_tournament_select, hw, Option.getD_some]
  have hwmem : w ∈ [g 0 % population.length, g 1 % population.length,
      g 2 % population.length] := by
    obtain ⟨_, pre, post, hdec, _⟩ := hmax
    rw [hdec]; simp
  have hwlt : w < population.length := by
    simp only [List.mem_cons, List.not_mem_nil, or_false] at hwmem
    rcases hwmem with rfl | rfl | rfl
    · exact h1
    · exact h2
    · exact h3
  rw [hres, List.getD_eq_getElem _ _ hwlt]
  exact List.getElem_mem hwlt

theorem mutate_good (available_symptoms ind : Finset Symptom) (rate : ℝ) (n : ℕ)
    (g : Rng) (hgood : GoodInd available_symptoms n ind) (hn : 1 ≤ n) :
    GoodInd available_symptoms n (_mutate ind available_symptoms rate n g).1 := by
  obtain ⟨hsub, hcard⟩ := hgood
  simp only [_mutate]
  split_ifs with hcoin hempty
  · exact ⟨hsub, hcard⟩
  · have hind_ne : ind ≠ ∅ := by
      intro h
      rw [h, Finset.card_empty] at hcard
      omega
    have hpick1 : (choiceF ind (rngDrop g 1)).1 ∈ ind := choiceF_mem hind_ne _
    have hpick2 : (choiceF (available_symptoms \ ind)
        ((choiceF ind (rngDrop g 1)).2)).1 ∈ available_symptoms \ ind :=
      choiceF_mem hempty _
    have hpick2_not : (choiceF (available_symptoms \ ind)
        ((choiceF ind (rngDrop g 1)).2)).1 ∉ ind := (Finset.mem_sdiff.mp hpick2).2
    constructor
    · intro x hx
      rcases Finset.mem_insert.mp hx with rfl | hx'
      · exact (Finset.mem_sdiff.mp hpick2).1
      · exact hsub (Finset.mem_of_mem_erase hx')
    · rw [Finset.card_insert_of_not_mem
        (fun h => hpick2_not (Finset.mem_of_mem_erase h)),
        Finset.card_erase_of_mem hpick1, hcard]
      omega
  · exact ⟨hsub, hcard⟩

theorem localSearchGo_good (cat : Catalog) (current_symptoms : Finset Symptom)
    (candidate_diseases : Catalog) (all_syms ind : Finset Symptom) (n : ℕ)
    (hind : GoodInd (all_syms \ current_symptoms) n ind) (hn : 1 ≤ n) :
    ∀ (lst : List Symptom) (st : Finset Symptom × ℝ) (g : Rng),
      (∀ s ∈ lst, s ∈ ind) → GoodInd (all_syms \ current_symptoms) n st.1 →
      GoodInd (all_syms \ current_symptoms) n
        (localSearchGo cat current_symptoms candidate_diseases all_syms ind lst st g).1.1 := by
  intro lst
  induction lst with
  | nil => intro st g _ hst; exact hst
  | cons s rest ih =>
    intro st g hmem hst
    obtain ⟨hsub, hcard⟩ := hind
    have hs : s ∈ ind := hmem s (by simp)
    have hrest : ∀ x ∈ rest, x ∈ ind := fun x hx => hmem x (by simp [hx])
    by_cases hempty : ((all_syms \ current_symptoms) \ ind) = ∅
    · simp only [localSearchGo, if_pos hempty]
      exact ih st g hrest hst
    · have hpick : (choiceF ((all_syms \ current_symptoms) \ ind) g).1
          ∈ (all_syms \ current_symptoms) \ ind := choiceF_mem hempty _
      have hpick_in : (choiceF ((all_syms \ current_symptoms) \ ind) g).1
          ∈ all_syms \ current_symptoms := (Finset.mem_sdiff.mp hpick).1
      have hpick_not : (choiceF ((all_syms \ current_symptoms) \ ind) g).1 ∉ ind :=
        (Finset.mem_sdiff.mp hpick).2
      have hnew : GoodInd (all_syms \ current_symptoms) n
          (insert (choiceF ((all_syms \ current_symptoms) \ ind) g).1 (ind.erase s)) := by
        constructor
        · intro x hx
          rcases Finset.mem_insert.mp hx with rfl | hx'
          · exact hpick_in
          · exact hsub (Finset.mem_of_mem_erase hx')
        · rw [Finset.card_insert_of_not_mem
            (fun h => hpick_not (Finset.mem_of_mem_erase h)),
            Finset.card_erase_of_mem hs, hcard]
          omega
      simp only [localSearchGo, if_neg hempty]
      split_ifs with himprove
      · exact ih _ _ hrest hnew
      · exact ih _ _ hrest hst

theorem local_search_good (cat : Catalog) (current_symptoms : Finset Symptom)
    (candidate_diseases : Catalog) (all_syms ind : Finset Symptom) (n : ℕ) (g : Rng)
    (hind : GoodInd (all_syms \ current_symptoms) n ind) (hn : 1 ≤ n) :
    GoodInd (all_syms \ current_symptoms) n
      (_local_search cat current_symptoms candidate_diseases all_syms ind g).1 := by
  simp only [_local_search]
  exact localSearchGo_good cat current_symptoms candidate_diseases all_syms ind n hind hn
    (ind.sort (· ≤ ·)) _ g (fun s hs => (Finset.mem_sort _).mp hs) hind

theorem breedStep_good (population : List (Finset Symptom)) (fit : Finset Symptom → ℝ)
    (available_symptoms : Finset Symptom) (rate : ℝ) (n : ℕ) (g : Rng)
    (hne : population ≠ []) (hpop : ∀ x ∈ population, GoodInd available_symptoms n x)
    (hn : 1 ≤ n) :
    ∀ y ∈ (breedStep population fit available_symptoms rate n g).1,
      GoodInd available_symptoms n y := by
  intro y hy
  have ht1 := hpop _ (tournament_select_mem population fit g hne)
  have ht2 := hpop _ (tournament_select_mem population fit
    (_tournament_select population fit g).2 hne)
  obtain ⟨heq, hcard, hsub⟩ := crossover_spec
    (_tournament_select population fit g).1
    (_tournament_select population fit (_tournament_select population fit g).2).1
    n
    (_tournament_select population fit (_tournament_select population fit g).2).2
    ht1.2 ht2.2
  have hunion : (_tournament_select population fit g).1
      ∪ (_tournament_select population fit (_tournament_select population fit g).2).1
      ⊆ available_symptoms := Finset.union_subset ht1.1 ht2.1
  have hc1 : GoodInd available_symptoms n
      (_crossover (_tournament_select population fit g).1
        (_tournament_select population fit (_tournament_select population fit g).2).1 n
        (_tournament_select population fit
          (_tournament_select population fit g).2).2).1.1 :=
    ⟨fun x hx => hunion (hsub hx), hcard⟩
  have hc2 : GoodInd available_symptoms n
      (_crossover (_tournament_select population fit g).1
        (_tournament_select population fit (_tournament_select population fit g).2).1 n
        (_tournament_select population fit
          (_tournament_select population fit g).2).2).1.2 := heq ▸ hc1
  have hm1 := mutate_good available_symptoms _ rate n
    (_crossover (_tournament_select population fit g).1
      (_tournament_select population fit (_tournament_select population fit g).2).1 n
      (_tournament_select population fit
        (_tournament_select population fit g).2).2).2 hc1 hn
  have hm2 := mutate_good available_symptoms _ rate n
    (_mutate (_crossover (_tournament_select population fit g).1
      (_tournament_select population fit (_tournament_select population fit g).2).1 n
      (_tournament_select population fit
        (_tournament_select population fit g).2).2).1.1 available_symptoms rate n
      (_crossover (_tournament_select population fit g).1
        (_tournament_select population fit (_tournament_select population fit g).2).1 n
        (_tournament_select population fit
          (_tournament_select population fit g).2).2).2).2 hc2 hn
  simp only [breedStep, List.mem_cons, List.not_mem_nil, or_false] at hy
  rcases hy with rfl | rfl
  · exact hm1
  · exact hm2

theorem breedLoop_good (population : List (Finset Symptom)) (fit : Finset Symptom → ℝ)
    (available_symptoms : Finset Symptom) (rate : ℝ) (n : ℕ)
    (hne : population ≠ []) (hpop : ∀ x ∈ population, GoodInd available_symptoms n x)
    (hn : 1 ≤ n) :
    ∀ (k : ℕ) (acc : List (Finset Symptom)) (g : Rng),
      (∀ x ∈ acc, GoodInd available_symptoms n x) →
      (∀ y ∈ (breedLoop population fit available_symptoms rate n k acc g).1,
        GoodInd available_symptoms n y)
      ∧ (acc ≠ [] →
        (breedLoop population fit available_symptoms rate n k acc g).1 ≠ []) := by
  intro k
  induction k with
  | zero => intro acc g hacc; exact ⟨hacc, fun h => h⟩
  | succ k ih =>
    intro acc g hacc
    have hstep := breedStep_good population fit available_symptoms rate n g hne hpop hn
    have hacc' : ∀ x ∈ acc ++ (breedStep population fit available_symptoms rate n g).1,
        GoodInd available_symptoms n x := by
      intro x hx
      rcases List.mem_append.mp hx with hx' | hx'
      · exact hacc x hx'
      · exact hstep x hx'
    obtain ⟨hmem, hne'⟩ := ih (acc ++ (breedStep population fit available_symptoms rate n g).1)
      (breedStep population fit available_symptoms rate n g).2 hacc'
    refine ⟨hmem, fun hacc_ne => hne' ?_⟩
    simp [hacc_ne]

theorem drop_sortBy_spec {α : Type} (r : α → α → Prop) (l : List α) (hne : l ≠ [])
    (k : ℕ) :
    (sortBy r l).drop ((sortBy r l).length - 5) ≠ []
    ∧ ∀ x ∈ (sortBy r l).drop k, x ∈ l := by
  have hperm := sortBy_perm r l
  have hlen : (sortBy r l).length = l.length := hperm.length_eq
  have hpos : 0 < l.length := List.length_pos.mpr hne
  constructor
  · rw [ne_eq, List.drop_eq_nil_iff, hlen]
    omega
  · intro x hx
    exact hperm.subset (List.drop_subset _ _ hx)

theorem generationStep_inv (cat : Catalog) (current_symptoms : Finset Symptom)
    (candidate_diseases : Catalog) (denied_symptoms available_symptoms : Finset Symptom)
    (n : ℕ) (hn : 1 ≤ n)
    (hav : available_symptoms = all_symptoms cat \ current_symptoms)
    (st : List (Finset Symptom) × ℝ × Rng) (hne : st.1 ≠ [])
    (hgood : ∀ x ∈ st.1, GoodInd available_symptoms n x) :
    (generationStep cat current_symptoms candidate_diseases denied_symptoms
        available_symptoms n st).1 ≠ []
    ∧ ∀ x ∈ (generationStep cat current_symptoms candidate_diseases denied_symptoms
        available_symptoms n st).1, GoodInd available_symptoms n x := by
  obtain ⟨helite_ne, helite_mem⟩ := drop_sortBy_spec
    (fun a b =>
      genetic_fitness cat current_symptoms candidate_diseases denied_symptoms a
        ≤ genetic_fitness cat current_symptoms candidate_diseases denied_symptoms b)
    st.1 hne
    ((sortBy (fun a b =>
      genetic_fitness cat current_symptoms candidate_diseases denied_symptoms a
        ≤ genetic_fitness cat current_symptoms candidate_diseases denied_symptoms b)
      st.1).length - 5)
  have helite_good : ∀ x ∈ (sortBy (fun a b =>
      genetic_fitness cat current_symptoms candidate_diseases denied_symptoms a
        ≤ genetic_fitness cat current_symptoms candidate_diseases denied_symptoms b)
      st.1).drop ((sortBy (fun a b =>
        genetic_fitness cat current_symptoms candidate_diseases denied_symptoms a
          ≤ genetic_fitness cat current_symptoms candidate_diseases denied_symptoms b)
      st.1).length - 5), GoodInd available_symptoms n x :=
    fun x hx => hgood x (helite_mem x hx)
  obtain ⟨hbred_good, hbred_ne⟩ := breedLoop_good st.1
    (genetic_fitness cat current_symptoms candidate_diseases denied_symptoms)
    available_symptoms st.2.1 n hne hgood hn ((50 - 5) / 2)
    ((sortBy (fun a b =>
      genetic_fitness cat current_symptoms candidate_diseases denied_symptoms a
        ≤ genetic_fitness cat current_symptoms candidate_diseases denied_symptoms b)
      st.1).drop ((sortBy (fun a b =>
        genetic_fitness cat current_symptoms candidate_diseases denied_symptoms a
          ≤ genetic_fitness cat current_symptoms candidate_diseases denied_symptoms b)
      st.1).length - 5))
    st.2.2 helite_good
  have hls : ∀ x ∈ (breedLoop st.1
      (genetic_fitness cat current_symptoms candidate_diseases denied_symptoms)
      available_symptoms st.2.1 n ((50 - 5) / 2)
      ((sortBy (fun a b =>
        genetic_fitness cat current_symptoms candidate_diseases denied_symptoms a
          ≤ genetic_fitness cat current_symptoms candidate_diseases denied_symptoms b)
        st.1).drop ((sortBy (fun a b =>
          genetic_fitness cat current_symptoms candidate_diseases denied_symptoms a
            ≤ genetic_fitness cat current_symptoms candidate_diseases denied_symptoms b)
        st.1).length - 5)) st.2.2).1,
      ∀ g', GoodInd available_symptoms n
        (_local_search cat current_symptoms candidate_diseases (all_symptoms cat) x g').1 := by
    intro x hx g'
    have := local_search_good cat current_symptoms candidate_diseases (all_symptoms cat)
      x n g' (hav ▸ hbred_good x hx) hn
    exact hav ▸ this
  constructor
  · simp only [generationStep, ne_eq]
    intro hcontra
    have hlen0 : (mapRand
        (fun ind g => _local_search cat current_symptoms candidate_diseases
          (all_symptoms cat) ind g)
        (breedLoop st.1
          (genetic_fitness cat current_symptoms candidate_diseases denied_symptoms)
          available_symptoms st.2.1 n ((50 - 5) / 2)
          ((sortBy (fun a b =>
            genetic_fitness cat current_symptoms candidate_diseases denied_symptoms a
              ≤ genetic_fitness cat current_symptoms candidate_diseases denied_symptoms b)
            st.1).drop ((sortBy (fun a b =>
              genetic_fitness cat current_symptoms candidate_diseases denied_symptoms a
                ≤ genetic_fitness cat current_symptoms candidate_diseases
                  denied_symptoms b)
            st.1).length - 5)) st.2.2).1
        (breedLoop st.1
          (genetic_fitness cat current_symptoms candidate_diseases denied_symptoms)
          available_symptoms st.2.1 n ((50 - 5) / 2)
          ((sortBy (fun a b =>
            genetic_fitness cat current_symptoms candidate_diseases denied_symptoms a
              ≤ genetic_fitness cat current_symptoms candidate_diseases denied_symptoms b)
            st.1).drop ((sortBy (fun a b =>
              genetic_fitness cat current_symptoms candidate_diseases denied_symptoms a
                ≤ genetic_fitness cat current_symptoms candidate_diseases
                  denied_symptoms b)
            st.1).length - 5)) st.2.2).2).1.length = 0 := by
      rw [hcontra]; rfl
    rw [mapRand_length] at hlen0
    exact hbred_ne helite_ne (List.length_eq_zero.mp hlen0)
  · intro x hx
    simp only [generationStep] at hx
    exact mapRand_mem _ _ _ hls x hx

theorem genLoop_inv {σ : Type} (step : σ → σ) (P : σ → Prop)
    (hstep : ∀ s, P s → P (step s)) : ∀ (k : ℕ) (s : σ), P s → P (genLoop step k s) := by
  intro k
  induction k with
  | zero => intro s hs; exact hs
  | succ k ih => intro s hs; exact ih (step s) (hstep s hs)

/-- Invariant of `_genetic_algorithm`: with `1 ≤ n ≤ |pool|` the returned
individual is an `n`-subset of the pool. -/
theorem genetic_algorithm_spec (cat : Catalog) (current_symptoms : Finset Symptom)
    (candidate_diseases : Catalog) (available_symptoms denied_symptoms : Finset Symptom)
    (n : ℕ) (g : Rng) (hn : 1 ≤ n) (hcard : n ≤ available_symptoms.card)
    (hav : available_symptoms = all_symptoms cat \ current_symptoms) :
    GoodInd available_symptoms n
      (_genetic_algorithm cat current_symptoms candidate_diseases available_symptoms n
        denied_symptoms g).1 := by
  have hinit_good : ∀ y ∈ (mapRand
      (fun _ g =>
        let s := sampleWoR n (available_symptoms.sort (· ≤ ·)) g
        (s.1.toFinset, s.2))
      (List.replicate 50 0) g).1, GoodInd available_symptoms n y := by
    refine mapRand_mem _ _ _ ?_
    intro x _ g'
    constructor
    · intro z hz
      rw [List.mem_toFinset] at hz
      exact (Finset.mem_sort _).mp (sampleWoR_subset n _ g' z hz)
    · rw [List.toFinset_card_of_nodup
        (sampleWoR_nodup n _ g' (Finset.sort_nodup _ _)), sampleWoR_length]
      rw [Finset.length_sort]
      exact min_eq_left hcard
  have hinit_ne : (mapRand
      (fun _ g =>
        let s := sampleWoR n (available_symptoms.sort (· ≤ ·)) g
        (s.1.toFinset, s.2))
      (List.replicate 50 0) g).1 ≠ [] := by
    intro hcontra
    have := mapRand_length
      (fun (_ : ℕ) g =>
        let s := sampleWoR n (available_symptoms.sort (· ≤ ·)) g
        (s.1.toFinset, s.2))
      (List.replicate 50 0) g
    rw [hcontra] at this
    simp at this
  have hfinal := genLoop_inv
    (generationStep cat current_symptoms candidate_diseases denied_symptoms
      available_symptoms n)
    (fun st => st.1 ≠ [] ∧ ∀ x ∈ st.1, GoodInd available_symptoms n x)
    (fun st hst => generationStep_inv cat current_symptoms candidate_diseases
      denied_symptoms available_symptoms n hn hav st hst.1 hst.2)
    30
    ((mapRand
      (fun _ g =>
        let s := sampleWoR n (available_symptoms.sort (· ≤ ·)) g
        (s.1.toFinset, s.2))
      (List.replicate 50 0) g).1, (0.1 : ℝ), (mapRand
      (fun _ g =>
        let s := sampleWoR n (available_symptoms.sort (· ≤ ·)) g
        (s.1.toFinset, s.2))
      (List.replicate 50 0) g).2)
    ⟨hinit_ne, hinit_good⟩
  obtain ⟨hfin_ne, hfin_good⟩ := hfinal
  cases harg : argmaxFirst
      (genetic_fitness cat current_symptoms candidate_diseases denied_symptoms)
      (genLoop (generationStep cat current_symptoms candidate_diseases denied_symptoms
          available_symptoms n) 30
        ((mapRand
          (fun _ g =>
            let s := sampleWoR n (available_symptoms.sort (· ≤ ·)) g
            (s.1.toFinset, s.2))
          (List.replicate 50 0) g).1, (0.1 : ℝ), (mapRand
          (fun _ g =>
            let s := sampleWoR n (available_symptoms.sort (· ≤ ·)) g
            (s.1.toFinset, s.2))
          (List.replicate 50 0) g).2)).1 with
  | none => exact absurd (argmaxFirst_eq_none.mp harg) hfin_ne
  | some b =>
    have hb : b ∈ _ := argmaxFirst_mem harg
    have hres : (_genetic_algorithm cat current_symptoms candidate_diseases
        available_symptoms n denied_symptoms g).1 = b := by
      simp only [_genetic_algorithm, harg, Option.getD_some]
    rw [hres]
    exact hfin_good b hb

end GeneticLemmas

section ClaimSupport

/-- Denial-penalized combined score of a candidate combination, phrased on
sets: `CombinedScore(confirmed ∪ c, candidates) − 0.2·|{denied symptoms in
c}|`.  On duplicate-free lists it agrees with `exhaustive_combo_score`. -/
noncomputable def set_combo_score (cat : Catalog) (current_symptoms : Finset Symptom)
    (candidate_diseases : Catalog) (denied_symptoms : Finset Symptom)
    (s : Finset Symptom) : ℝ :=
  _calculate_combined_score cat (current_symptoms ∪ s) candidate_diseases
    - ((s.filter (fun x => x ∈ denied_symptoms)).card : ℝ) * 0.2

theorem exhaustive_combo_score_eq_set {cat : Catalog} {current_symptoms : Finset Symptom}
    {candidate_diseases : Catalog} {denied_symptoms : Finset Symptom}
    {c : List Symptom} (hc : c.Nodup) :
    exhaustive_combo_score cat current_symptoms candidate_diseases denied_symptoms c
      = set_combo_score cat current_symptoms candidate_diseases denied_symptoms
          c.toFinset := by
  unfold exhaustive_combo_score set_combo_score
  congr 2
  have hfilter : c.toFinset.filter (fun x => x ∈ denied_symptoms)
      = (c.filter (fun x => x ∈ denied_symptoms)).toFinset := by
    rw [List.toFinset_filter]
    apply Finset.filter_congr
    intro x _
    simp
  rw [hfilter, List.toFinset_card_of_nodup (hc.filter _), List.countP_eq_length_filter]

theorem IsFirstMax_mem {α : Type} {f : α → ℝ} {l : List α} {c : α}
    (h : IsFirstMax f l c) : c ∈ l := by
  obtain ⟨_, pre, post, hdec, _⟩ := h
  rw [hdec]
  simp

end ClaimSupport

section Claims

/-- C1: for every catalog, confirmed set, denied set, and `1 ≤ n ≤ |pool|`,
the set returned by `calculate_next_n_symptoms` with method `exhaustive` is
(the set of) a size-`n` combination of the unknown pool maximizing
`CombinedScore(confirmed ∪ c, candidates) − 0.2·(denied count in c)` over
all size-`n` combinations of the pool, and among equal maximizers it is the
first one in enumeration order over the importance-sorted pool. -/
theorem C1_exhaustive_first_maximizer (cat : Catalog)
    (current_symptoms denied_symptoms : Finset Symptom) (n : ℕ) (g : Rng)
    (hn : 1 ≤ n) (hcard : n ≤ (all_symptoms cat \ current_symptoms).card) :
    ∃ c : List Symptom,
      calculate_next_n_symptoms cat current_symptoms n "exhaustive"
          (some denied_symptoms) g = .ok c.toFinset
      ∧ IsFirstMax
          (exhaustive_combo_score cat current_symptoms
            (get_candidate_diseases cat current_symptoms) denied_symptoms)
          (combinations n (sorted_pool cat current_symptoms
            (get_candidate_diseases cat current_symptoms) denied_symptoms
            (all_symptoms cat \ current_symptoms))) c
      ∧ ∀ s : Finset Symptom, s ⊆ all_symptoms cat \ current_symptoms → s.card = n →
          set_combo_score cat current_symptoms
              (get_candidate_diseases cat current_symptoms) denied_symptoms s
            ≤ set_combo_score cat current_symptoms
              (get_candidate_diseases cat current_symptoms) denied_symptoms
              c.toFinset := by
  obtain ⟨c, hres, hmax⟩ := exhaustive_search_spec cat current_symptoms
    (get_candidate_diseases cat current_symptoms)
    (all_symptoms cat \ current_symptoms) n denied_symptoms hcard
  have hcnodup : c.Nodup :=
    (combinations_sublist (IsFirstMax_mem hmax)).nodup
      (sorted_pool_nodup _ _ _ _ _)
  refine ⟨c, ?_, hmax, ?_⟩
  · simp only [calculate_next_n_symptoms, Option.getD_some]
    rw [if_neg (not_lt.mpr hcard)]
    simp [hres]
  · intro s hsub hscard
    obtain ⟨c', hc', hc's⟩ := combinations_complete
      (sorted_pool_nodup cat current_symptoms
        (get_candidate_diseases cat current_symptoms) denied_symptoms
        (all_symptoms cat \ current_symptoms)) s
      (fun x hx => sorted_pool_mem.mpr (hsub hx)) hscard
    have hle := hmax.1 c' hc'
    have hc'nodup : c'.Nodup :=
      (combinations_sublist hc').nodup (sorted_pool_nodup _ _ _ _ _)
    rw [exhaustive_combo_score_eq_set hc'nodup, exhaustive_combo_score_eq_set hcnodup,
      hc's] at hle
    exact hle

theorem C1_exhaustive_first_maximizer_witness :
    ∃ c : List Symptom,
      calculate_next_n_symptoms [(0, {0, 1})] ∅ 1 "exhaustive" (some ∅) (fun _ => 0)
          = .ok c.toFinset
      ∧ IsFirstMax
          (exhaustive_combo_score [(0, {0, 1})] ∅ (get_candidate_diseases [(0, {0, 1})] ∅) ∅)
          (combinations 1 (sorted_pool [(0, {0, 1})] ∅
            (get_candidate_diseases [(0, {0, 1})] ∅) ∅
            (all_symptoms [(0, {0, 1})] \ ∅))) c
      ∧ ∀ s : Finset Symptom, s ⊆ all_symptoms [(0, {0, 1})] \ ∅ → s.card = 1 →
          set_combo_score [(0, {0, 1})] ∅ (get_candidate_diseases [(0, {0, 1})] ∅) ∅ s
            ≤ set_combo_score [(0, {0, 1})] ∅ (get_candidate_diseases [(0, {0, 1})] ∅) ∅
              c.toFinset := by
  have := C1_exhaustive_first_maximizer [(0, {0, 1})] ∅ ∅ 1 (fun _ => 0)
    (by decide) (by decide)
  simpa using this

/-- C2: for every catalog, confirmed set, denied set, `n ≥ 1` and method
among greedy/exhaustive/genetic, the proposal is a subset of
`AllSymptoms − confirmed`; it has size exactly `n` when the pool has at
least `n` symptoms, and equals the entire remaining pool when the pool is
smaller than `n`, regardless of method. -/
theorem C2_proposal_shape (cat : Catalog)
    (current_symptoms denied_symptoms : Finset Symptom) (n : ℕ) (method : String)
    (g : Rng) (hmethod : method ∈ (["greedy", "exhaustive", "genetic"] : List String))
    (hn : 1 ≤ n) :
    ∃ p : Finset Symptom,
      calculate_next_n_symptoms cat current_symptoms n method (some denied_symptoms) g
          = .ok p
      ∧ p ⊆ all_symptoms cat \ current_symptoms
      ∧ (n ≤ (all_symptoms cat \ current_symptoms).card → p.card = n)
      ∧ ((all_symptoms cat \ current_symptoms).card < n →
          p = all_symptoms cat \ current_symptoms) := by
  by_cases hlt : (all_symptoms cat \ current_symptoms).card < n
  · refine ⟨all_symptoms cat \ current_symptoms, ?_, Finset.Subset.refl _, ?_,
      fun _ => rfl⟩
    · simp only [calculate_next_n_symptoms, Option.getD_some]
      rw [if_pos hlt]
    · intro hle
      omega
  · have hcard : n ≤ (all_symptoms cat \ current_symptoms).card := not_lt.mp hlt
    simp only [List.mem_cons, List.not_mem_nil, or_false] at hmethod
    rcases hmethod with rfl | rfl | rfl
    · obtain ⟨hc, hs⟩ := greedy_selection_spec cat current_symptoms
        (get_candidate_diseases cat current_symptoms)
        (all_symptoms cat \ current_symptoms) n denied_symptoms hcard
      refine ⟨_, ?_, hs, fun _ => hc, fun h => absurd h hlt⟩
      simp only [calculate_next_n_symptoms, Option.getD_some]
      rw [if_neg hlt]
      simp
    · obtain ⟨c, hres, hmax⟩ := exhaustive_search_spec cat current_symptoms
        (get_candidate_diseases cat current_symptoms)
        (all_symptoms cat \ current_symptoms) n denied_symptoms hcard
      have hsub' := combinations_sublist (IsFirstMax_mem hmax)
      have hnodup := hsub'.nodup (sorted_pool_nodup _ _ _ _ _)
      have hlen := combinations_length (IsFirstMax_mem hmax)
      refine ⟨c.toFinset, ?_, ?_, ?_, fun h => absurd h hlt⟩
      · simp only [calculate_next_n_symptoms, Option.getD_some]
        rw [if_neg hlt]
        simp [hres]
      · intro x hx
        exact sorted_pool_mem.mp (hsub'.subset (List.mem_toFinset.mp hx))
      · intro _
        rw [List.toFinset_card_of_nodup hnodup, hlen]
    · obtain ⟨hs, hc⟩ := genetic_algorithm_spec cat current_symptoms
        (get_candidate_diseases cat current_symptoms)
        (all_symptoms cat \ current_symptoms) denied_symptoms n g hn hcard rfl
      refine ⟨_, ?_, hs, fun _ => hc, fun h => absurd h hlt⟩
      simp only [calculate_next_n_symptoms, Option.getD_some]
      rw [if_neg hlt]
      simp

theorem C2_proposal_shape_witness :
    ∃ p : Finset Symptom,
      calculate_next_n_symptoms [(0, {0, 1})] ∅ 1 "greedy" (some ∅) (fun _ => 0) = .ok p
      ∧ p ⊆ all_symptoms [(0, {0, 1})] \ ∅
      ∧ (1 ≤ (all_symptoms [(0, {0, 1})] \ ∅).card → p.card = 1)
      ∧ ((all_symptoms [(0, {0, 1})] \ ∅).card < 1 →
          p = all_symptoms [(0, {0, 1})] \ ∅) := by
  have := C2_proposal_shape [(0, {0, 1})] ∅ ∅ 1 "greedy" (fun _ => 0)
    (by simp) (by decide)
  simpa using this

/-- C4 (code behaviour at the failing input of the claim): calling
`calculate_next_n_symptoms` with `n = 0` and method greedy silently returns
the empty proposal `ok ∅` for every catalog, confirmed set and denied set —
there is no invalid-argument error on the `n ≤ 0` caller contract
violation. -/
theorem C4_n_zero_silently_returns_empty (cat : Catalog)
    (current_symptoms : Finset Symptom) (denied_symptoms : Option (Finset Symptom))
    (g : Rng) :
    calculate_next_n_symptoms cat current_symptoms 0 "greedy" denied_symptoms g
      = .ok ∅ := by
  simp only [calculate_next_n_symptoms]
  rw [if_neg (Nat.not_lt_zero _)]
  simp only [_greedy_selection, greedyLoop]
  simp

/-- C5: when the pool has at least `n` symptoms,
`calculate_next_n_symptoms` fails with the error `Unknown method` exactly
when the method string is none of greedy/exhaustive/genetic, and in that
case no proposal is produced (the error is the returned outcome). -/
theorem C5_unknown_method_iff (cat : Catalog) (current_symptoms : Finset Symptom)
    (n : ℕ) (method : String) (denied_symptoms : Option (Finset Symptom)) (g : Rng)
    (hcard : n ≤ (all_symptoms cat \ current_symptoms).card) :
    calculate_next_n_symptoms cat current_symptoms n method denied_symptoms g
        = .error "Unknown method"
      ↔ method ∉ (["greedy", "exhaustive", "genetic"] : List String) := by
  simp only [calculate_next_n_symptoms]
  rw [if_neg (not_lt.mpr hcard)]
  by_cases h1 : method = "greedy"
  · subst h1
    simp
  · rw [if_neg h1]
    by_cases h2 : method = "exhaustive"
    · subst h2
      simp
    · rw [if_neg h2]
      by_cases h3 : method = "genetic"
      · subst h3
        simp
      · rw [if_neg h3]
        simp [h1, h2, h3]

theorem C5_unknown_method_iff_witness :
    (calculate_next_n_symptoms [(0, {0, 1})] ∅ 1 "bogus" none (fun _ => 0)
        = .error "Unknown method"
      ↔ "bogus" ∉ (["greedy", "exhaustive", "genetic"] : List String)) :=
  C5_unknown_method_iff [(0, {0, 1})] ∅ 1 "bogus" none (fun _ => 0) (by decide)

/-- C6: `get_disease_match_scores` is monotone in the confirmed set — for
`confirmed ⊆ confirmed′` the two returned mappings list the same diseases
in the same order with pointwise non-decreasing match rates. -/
theorem C6_match_scores_monotone (cat : Catalog)
    (current_symptoms current_symptoms' : Finset Symptom)
    (h : current_symptoms ⊆ current_symptoms') :
    List.Forall₂ (fun p q => p.1 = q.1 ∧ p.2 ≤ q.2)
      (get_disease_match_scores cat current_symptoms)
      (get_disease_match_scores cat current_symptoms') := by
  induction cat with
  | nil => exact List.Forall₂.nil
  | cons d cat ih =>
    refine List.Forall₂.cons ⟨rfl, ?_⟩ ih
    unfold match_rate
    dsimp only
    split_ifs with hpos
    · have hsub : current_symptoms ∩ d.2 ⊆ current_symptoms' ∩ d.2 :=
        Finset.inter_subset_inter h (Finset.Subset.refl _)
      have hle : ((current_symptoms ∩ d.2).card : ℚ)
          ≤ ((current_symptoms' ∩ d.2).card : ℚ) := by
        exact_mod_cast Finset.card_le_card hsub
      have hc : (0 : ℚ) < (d.2.card : ℚ) := by exact_mod_cast hpos
      exact (div_le_div_iff_of_pos_right hc).mpr hle
    · exact le_refl _

theorem C6_match_scores_monotone_witness :
    List.Forall₂ (fun p q => p.1 = q.1 ∧ p.2 ≤ q.2)
      (get_disease_match_scores [(0, {0, 1}), (1, {1, 2, 3})] {0})
      (get_disease_match_scores [(0, {0, 1}), (1, {1, 2, 3})] {0, 1}) :=
  C6_match_scores_monotone [(0, {0, 1}), (1, {1, 2, 3})] {0} {0, 1} (by decide)

/-- C7: the mapping returned by `get_disease_match_scores` contains every
catalog disease with value `|confirmed ∩ symptoms| / |symptoms|` (0 when
the symptom set is empty), a rate within `[0, 1]`; and with an empty
confirmed set every listed rate is 0. -/
theorem C7_match_scores_values (cat : Catalog) (current_symptoms : Finset Symptom) :
    (∀ d syms, (d, syms) ∈ cat →
      (d, match_rate current_symptoms syms) ∈ get_disease_match_scores cat current_symptoms
      ∧ 0 ≤ match_rate current_symptoms syms ∧ match_rate current_symptoms syms ≤ 1)
    ∧ ∀ p ∈ get_disease_match_scores cat ∅, p.2 = 0 := by
  constructor
  · intro d syms hmem
    refine ⟨List.mem_map.mpr ⟨(d, syms), hmem, rfl⟩, ?_, ?_⟩
    · unfold match_rate
      split_ifs with hpos
      · positivity
      · exact le_refl 0
    · unfold match_rate
      split_ifs with hpos
      · rw [div_le_one (by exact_mod_cast hpos)]
        exact_mod_cast Finset.card_le_card Finset.inter_subset_right
      · exact zero_le_one
  · intro p hp
    obtain ⟨q, _, rfl⟩ := List.mem_map.mp hp
    unfold match_rate
    split_ifs with hpos
    · simp
    · rfl

theorem C7_match_scores_values_witness :
    ((0 : ℕ), match_rate {0} {0, 1}) ∈ get_disease_match_scores [(0, {0, 1})] {0}
    ∧ 0 ≤ match_rate {0} {0, 1} ∧ match_rate {0} {0, 1} ≤ 1 :=
  (C7_match_scores_values [(0, {0, 1})] {0}).1 0 {0, 1} (by decide)

/-- C8: on parents that are size-`n` symptom sets, `_crossover` returns two
children that are the same set, of size exactly `n`, contained in the union
of the parents. -/
theorem C8_crossover_children (parent1 parent2 : Finset Symptom) (n : ℕ) (g : Rng)
    (h1 : parent1.card = n) (h2 : parent2.card = n) :
    (_crossover parent1 parent2 n g).1.1 = (_crossover parent1 parent2 n g).1.2
    ∧ (_crossover parent1 parent2 n g).1.1.card = n
    ∧ (_crossover parent1 parent2 n g).1.1 ⊆ parent1 ∪ parent2 :=
  crossover_spec parent1 parent2 n g h1 h2

theorem C8_crossover_children_witness :
    (_crossover {0} {1} 1 (fun _ => 0)).1.1 = (_crossover {0} {1} 1 (fun _ => 0)).1.2
    ∧ (_crossover {0} {1} 1 (fun _ => 0)).1.1.card = 1
    ∧ (_crossover {0} {1} 1 (fun _ => 0)).1.1 ⊆ {0} ∪ {1} :=
  C8_crossover_children {0} {1} 1 (fun _ => 0) (by decide) (by decide)

/-- C9: with an empty candidate disease set the scoring functions degrade
gracefully to 0 instead of raising — the `log2(0)` and division-by-zero
branches are cut off by the explicit emptiness guards. -/
theorem C9_empty_candidates_zero (symptoms : Finset Symptom) :
    _calculate_total_information_gain symptoms [] = 0
    ∧ _calculate_coverage_score symptoms [] = 0 := by
  constructor
  · rfl
  · simp [_calculate_coverage_score]

/-- C10: omitting the denied set (passing `None`) behaves identically to
passing the empty denied set, for every catalog, confirmed set, `n` and
method. -/
theorem C10_denied_default (cat : Catalog) (current_symptoms : Finset Symptom)
    (n : ℕ) (method : String) (g : Rng) :
    calculate_next_n_symptoms cat current_symptoms n method none g
      = calculate_next_n_symptoms cat current_symptoms n method (some ∅) g := rfl

end Claims

end DiagTCM
